import Mathlib

/-!
Shallow embedding of the publify PDF→EPUB core pipeline
(`pkg/converter/pdf.go`, the text processor in `text.go`, and the
chapter grouping in `converter.go`), together with proofs that settle
the spec claims about it.

Modelling conventions:
* Go strings are modelled as `List Char` (`Str`).  The source mixes
  `len(s)` (bytes) with `[]rune` (code points); all concrete inputs used
  below are ASCII, where the two coincide, and `Str.length` models both.
* Go `float64` arithmetic on scores is modelled exactly over `ℚ`; the
  transcendental `math.Log` is a parameter `rlog : ℚ → ℚ` of every
  scoring function (both the code-side and spec-side formulas receive
  the same `rlog`, so the structural claims about the score do not
  depend on it).
* Go maps (the Markov chain's `transitions`/`totals`) are modelled as
  total functions with default `0`: training only ever stores positive
  counts, so "key present" coincides with "count positive".
* Unicode-aware helpers (`strings.ToLower`, `unicode.IsSpace`, …) are
  modelled on their ASCII fragment, which is all the pipeline's
  patterns and all concrete inputs exercise.
* The pdfium / OCR collaborators are abstracted as an oracle record of
  their per-page results, exactly the data `ProcessPage` consumes.
-/

set_option maxRecDepth 1000000

namespace Publify

/-- Go `string`, modelled as a list of characters. -/
abbrev Str := List Char

/-- ASCII fragment of `unicode.IsSpace` (used by `strings.TrimSpace`,
`strings.Fields`). -/
def isGoSpace (c : Char) : Bool :=
  c = ' ' || c = '\t' || c = '\n' || c = Char.ofNat 11 || c = Char.ofNat 12 || c = '\r'

/-- The RE2 character class `\s` = `[\t\n\f\r ]`. -/
def isRegexSpace (c : Char) : Bool :=
  c = ' ' || c = '\t' || c = '\n' || c = Char.ofNat 12 || c = '\r'

def isDigitChar (c : Char) : Bool := '0' ≤ c && c ≤ '9'

def isLowerAlpha (c : Char) : Bool := 'a' ≤ c && c ≤ 'z'

def isUpperAlpha (c : Char) : Bool := 'A' ≤ c && c ≤ 'Z'

/-- ASCII fragment of the per-character map underlying `strings.ToLower`. -/
def goLower (c : Char) : Char :=
  if isUpperAlpha c then Char.ofNat (c.toNat + 32) else c

/-- ASCII fragment of the per-character map underlying `strings.ToUpper`. -/
def goUpper (c : Char) : Char :=
  if isLowerAlpha c then Char.ofNat (c.toNat - 32) else c

def toLowerStr (s : Str) : Str := s.map goLower

def toUpperStr (s : Str) : Str := s.map goUpper

/-- `strings.TrimSpace`. -/
def trimSpace (s : Str) : Str :=
  ((s.dropWhile isGoSpace).reverse.dropWhile isGoSpace).reverse

/-- `strings.TrimRight(line, " \t")`. -/
def trimRightST (s : Str) : Str :=
  (s.reverse.dropWhile (fun c => c = ' ' || c = '\t')).reverse

/-- `strings.Trim(word, cutset)`: drop the cutset characters from both ends. -/
def trimBothChars (cut : Char → Bool) (s : Str) : Str :=
  ((s.dropWhile cut).reverse.dropWhile cut).reverse

/-- The cutset `".,!?:;"` of `calculateSingleCharPenalty`. -/
def isPunctCut (c : Char) : Bool :=
  c = '.' || c = ',' || c = '!' || c = '?' || c = ':' || c = ';'

/-- `strings.Split(s, sep)` for a one-character separator (always returns a
non-empty list, like Go's `Split`). -/
def splitOnChar (sep : Char) : Str → List Str
  | [] => [[]]
  | c :: rest =>
    if c = sep then [] :: splitOnChar sep rest
    else List.modifyHead (fun w => c :: w) (splitOnChar sep rest)

/-- `strings.Join(lines, sep)` for a one-character separator. -/
def joinStr (sep : Char) : List Str → Str
  | [] => []
  | [l] => l
  | l :: ls => l ++ sep :: joinStr sep ls

/-- Split at every whitespace character (helper for `fields`). -/
def splitAnyWS : Str → List Str
  | [] => [[]]
  | c :: rest =>
    if isGoSpace c then [] :: splitAnyWS rest
    else List.modifyHead (fun w => c :: w) (splitAnyWS rest)

/-- `strings.Fields`: the maximal whitespace-free runs of the string. -/
def fields (s : Str) : List Str := (splitAnyWS s).filter (fun w => !w.isEmpty)

/-- `strings.HasPrefix` (first argument the string, second the candidate
leading segment). -/
def startsWithStr : Str → Str → Bool
  | _, [] => true
  | [], _ :: _ => false
  | c :: cs, p :: ps => c = p && startsWithStr cs ps

/-- `strings.Contains s pat`. -/
def containsSubstr : Str → Str → Bool
  | [], pat => pat.isEmpty
  | s@(_ :: rest), pat => startsWithStr s pat || containsSubstr rest pat

/-- Decimal rendering of a page number (`fmt` `%d`). -/
def natStr (n : ℕ) : Str := (Nat.repr n).data

/-! ## The Markov-chain bleed-through classifier (`pdf.go`) -/

/-- `MarkovChain`: transition counts keyed by preceding character
(Go maps modelled as total functions, absent key = 0). -/
structure MarkovChain where
  transitions : Char → Char → ℕ
  totals : Char → ℕ

/-- `MarkovChain.getTransitionProbability`: observed relative frequency,
with floor `0.01` for unseen transitions. -/
def getTransitionProbability (mc : MarkovChain) (current next : Char) : ℚ :=
  if 0 < mc.totals current then
    if 0 < mc.transitions current next then
      (mc.transitions current next : ℚ) / (mc.totals current : ℚ)
    else 1/100
  else 1/100

/-- Adjacent character pairs `runes[i], runes[i+1]` of `scoreText`'s loop. -/
def adjPairs (s : Str) : List (Char × Char) := s.zip s.tail

/-- One iteration of `scoreText`'s loop: accumulates
`(logProb, count, suspiciousPatterns)`.  (The loop's `totalChars`
counter is dead code — it never influences the result — and is omitted.) -/
def scoreAcc (rlog : ℚ → ℚ) (mc : MarkovChain) (acc : ℚ × ℕ × ℕ) (p : Char × Char) :
    ℚ × ℕ × ℕ :=
  if isLowerAlpha p.1 && isLowerAlpha p.2 then
    let prob := getTransitionProbability mc p.1 p.2
    (acc.1 + rlog prob, acc.2.1 + 1, acc.2.2 + (if prob < 1/200 then 1 else 0))
  else acc

/-- `MarkovChain.calculateSingleCharPenalty`. -/
def calculateSingleCharPenalty (text : Str) : ℚ :=
  let words := fields text
  if words.length = 0 then -1
  else
    let shortCount := (words.filter (fun w =>
      let cw := trimBothChars isPunctCut w
      cw.length = 1 || cw.length = 2)).length
    let shortWordRatio : ℚ := (shortCount : ℚ) / (words.length : ℚ)
    if 2/5 < shortWordRatio then -3/2
    else if 1/5 < shortWordRatio then -1/2
    else 0

/-- `MarkovChain.scoreText` (the `math.Log` calls abstracted as `rlog`). -/
def scoreText (rlog : ℚ → ℚ) (mc : MarkovChain) (text : Str) : ℚ :=
  let t := toLowerStr text
  if t.length < 2 then -10
  else
    let acc := (adjPairs t).foldl (scoreAcc rlog mc) (0, 0, 0)
    if acc.2.1 = 0 then -10
    else
      let baseScore := acc.1 / (acc.2.1 : ℚ)
      let suspiciousPenalty := ((acc.2.2 : ℚ) / (acc.2.1 : ℚ)) * (-2)
      baseScore + suspiciousPenalty + calculateSingleCharPenalty t

/-- The classifier's threshold `-3.8`. -/
def bleedThreshold : ℚ := -19/5

/-- `PDFProcessor.isLikelyBleedThrough` (pure verdict; the
`rejectedPages` append performed by the callers is modelled at the
call sites). -/
def isLikelyBleedThrough (rlog : ℚ → ℚ) (mc : MarkovChain) (text : Str) : Bool :=
  let t := trimSpace text
  if t.length < 20 then false
  else decide (scoreText rlog mc t < bleedThreshold)

/-- `PDFProcessor.ValidateTextContent` (the `markovChain == nil` case is
the `none` branch). -/
def validateTextContent (rlog : ℚ → ℚ) (mc : Option MarkovChain) (text : Str)
    (threshold : ℚ) : ℚ × Bool :=
  match mc with
  | none => (0, false)
  | some mc =>
    let t := trimSpace text
    if t.length < 20 then (0, false)
    else
      let score := scoreText rlog mc t
      (score, decide (score < threshold))

/-! ## Page model (`pdf.go`, `pages.go` part) -/

/-- `PageType`. -/
inductive PageType where
  | text
  | image
deriving DecidableEq, Repr

/-- `PageRange`. -/
structure PageRange where
  start : ℕ
  stop : ℕ
deriving DecidableEq, Repr

/-- `PageRangeSet`. -/
structure PageRangeSet where
  ranges : List PageRange
deriving DecidableEq, Repr

/-- `PageRangeSet.Contains`. -/
def rangeSetContains (prs : PageRangeSet) (pageNum : ℕ) : Bool :=
  prs.ranges.any (fun r => r.start ≤ pageNum && pageNum ≤ r.stop)

/-- `GetPageType` (a `nil` range set is `none`). -/
def GetPageType (pageNum : ℕ) (imagePageRanges : Option PageRangeSet) : PageType :=
  match imagePageRanges with
  | some prs => if rangeSetContains prs pageNum then PageType.image else PageType.text
  | none => PageType.text

/-- `PDFPage` (the `Images`/`ImageData` collaborator payloads carry no
pipeline-relevant information and are omitted). -/
structure PDFPage where
  number : ℕ
  text : Str
  hasText : Bool
  hasImage : Bool
  pageType : PageType
  width : ℚ
  height : ℚ
deriving DecidableEq, Repr

/-- `strings.ReplaceAll(text, "\r\n", "\n")`. -/
def replaceCRLF : Str → Str
  | [] => []
  | [c] => [c]
  | c1 :: c2 :: rest =>
    if c1 = '\r' ∧ c2 = '\n' then '\n' :: replaceCRLF rest
    else c1 :: replaceCRLF (c2 :: rest)

/-- `strings.ReplaceAll(text, "\r", "\n")`. -/
def replaceCR (s : Str) : Str := s.map (fun c => if c = '\r' then '\n' else c)

/-- One iteration of `cleanText`'s line loop. -/
def cleanTextStep (cleanLines : List Str) (line : Str) : List Str :=
  let l := trimSpace line
  if !l.isEmpty then cleanLines ++ [l]
  else if !cleanLines.isEmpty && cleanLines.getLast? ≠ some [] then cleanLines ++ [[]]
  else cleanLines

/-- `cleanText` (`pdf.go`): normalize line endings, trim every line, and
collapse blank-line runs to a single blank line. -/
def cleanText (text : Str) : Str :=
  let t := replaceCR (replaceCRLF text)
  joinStr '\n' ((splitOnChar '\n' t).foldl cleanTextStep [])

/-! ## The text processor (`text.go`) -/

/-- `TextProcessingOptions`. -/
structure TextProcessingOptions where
  preserveFormatting : Bool
  minimizeFileSize : Bool
  convertToHTMLOpt : Bool
deriving DecidableEq, Repr

/-- `unicode.IsControl` on the Latin-1 range (C0, DEL, C1). -/
def isControlChar (c : Char) : Bool :=
  c.toNat < 32 || c.toNat = 127 || (128 ≤ c.toNat && c.toNat ≤ 159)

/-- The character filter of `basicCleanup`'s `strings.Map` (`true` = keep). -/
def keepChar (c : Char) : Bool :=
  !(c.toNat = 0 || (isControlChar c && c ≠ '\n' && c ≠ '\t'))

/-- `TextProcessor.basicCleanup`: strip control characters, normalize
line endings, trim trailing spaces/tabs per line. -/
def basicCleanup (text : Str) : Str :=
  let t := text.filter keepChar
  let t := replaceCR (replaceCRLF t)
  joinStr '\n' ((splitOnChar '\n' t).map trimRightST)

/-- The regex `^\d+$`. -/
def allDigitsPattern (s : Str) : Bool := !s.isEmpty && s.all isDigitChar

/-- The regex `^[-\s]*\d+[-\s\\.]*$` (decorated page numbers like `- 42 -`). -/
def dashNumPattern (s : Str) : Bool :=
  let s1 := s.dropWhile (fun c => c = '-' || isRegexSpace c)
  let ds := s1.takeWhile isDigitChar
  let s2 := s1.dropWhile isDigitChar
  !ds.isEmpty && s2.all (fun c => c = '-' || isRegexSpace c || c = '\\' || c = '.')

/-- `TextProcessor.isPageNumber`. -/
def isPageNumber (line : Str) : Bool :=
  let l := trimSpace line
  allDigitsPattern l || dashNumPattern l

/-- Maximal digit run: its length and the remaining input. -/
def takeDigitRun (s : Str) : ℕ × Str :=
  ((s.takeWhile isDigitChar).length, s.dropWhile isDigitChar)

/-- Regex piece `\d{1,2}` (the following pieces never start with a digit,
so the run must have length 1 or 2 exactly). -/
def pD12 (s : Str) : Option Str :=
  let r := takeDigitRun s
  if 1 ≤ r.1 && r.1 ≤ 2 then some r.2 else none

/-- Regex piece `(:\d{2})?` (a following piece never starts with `:`). -/
def pColonDD : Str → Option Str
  | ':' :: a :: b :: rest => if isDigitChar a && isDigitChar b then some rest else none
  | ':' :: _ => none
  | s => some s

/-- Regex piece `(-|\s*to\s*)`. -/
def pSep : Str → Option Str
  | '-' :: rest => some rest
  | s =>
    let r := s.dropWhile isRegexSpace
    if startsWithStr r ("to".data) then some ((r.drop 2).dropWhile isRegexSpace)
    else none

/-- Regex piece `(am|pm)`. -/
def pAmPm (s : Str) : Option Str :=
  if startsWithStr s ("am".data) then some (s.drop 2)
  else if startsWithStr s ("pm".data) then some (s.drop 2)
  else none

/-- Regex piece `\.\d{2}`. -/
def pDotDD : Str → Option Str
  | '.' :: a :: b :: rest => if isDigitChar a && isDigitChar b then some rest else none
  | _ => none

/-- Anchor `$`: the whole input must be consumed. -/
def matchedAll : Option Str → Bool
  | some [] => true
  | _ => false

/-- `^\d{1,2}(:\d{2})?(-|\s*to\s*)\d{1,2}(:\d{2})?(am|pm)$`. -/
def timePattern1 (s : Str) : Bool :=
  matchedAll (pD12 s >>= pColonDD >>= pSep >>= pD12 >>= pColonDD >>= pAmPm)

/-- `^\d{1,2}(:\d{2})?(am|pm)(-|\s*to\s*)\d{1,2}(:\d{2})?(am|pm)$`. -/
def timePattern2 (s : Str) : Bool :=
  matchedAll (pD12 s >>= pColonDD >>= pAmPm >>= pSep >>= pD12 >>= pColonDD >>= pAmPm)

/-- `^\d{1,2}\.\d{2}(-|\s*to\s*)\d{1,2}\.\d{2}(am|pm)$`. -/
def timePattern3 (s : Str) : Bool :=
  matchedAll (pD12 s >>= pDotDD >>= pSep >>= pD12 >>= pDotDD >>= pAmPm)

/-- `TextProcessor.isTimeSpan`: time-based chapter markers like `5-6am`. -/
def isTimeSpan (line : Str) : Bool :=
  let l := toLowerStr (trimSpace line)
  timePattern1 l || timePattern2 l || timePattern3 l

/-- The recurring book-title strings of `isBookHeader`. -/
def bookTitleList : List Str :=
  ["Air Babylon".data, "AIR BABYLON".data, "air babylon".data]

/-- `TextProcessor.isBookHeader`. -/
def isBookHeader (line : Str) : Bool :=
  let l := trimSpace line
  if l.length < 3 then false
  else if bookTitleList.any (fun t => containsSubstr (toLowerStr l) (toLowerStr t)) then
    true
  else if l.length ≤ 30 && !isTimeSpan l then
    toUpperStr l = l && (fields l).length ≤ 3
  else false

/-- One iteration of `removeBookArtifacts`'s line loop. -/
def removeArtifactsStep (cleanLines : List Str) (line : Str) : List Str :=
  let l := trimSpace line
  if l.isEmpty then cleanLines ++ [[]]
  else if isPageNumber l then cleanLines
  else if isBookHeader l then cleanLines
  else cleanLines ++ [l]

/-- `TextProcessor.removeBookArtifacts`. -/
def removeBookArtifacts (text : Str) : Str :=
  joinStr '\n' ((splitOnChar '\n' text).foldl removeArtifactsStep [])

/-- `regexp [ \t]+ → " "`: collapse space/tab runs to a single space. -/
def collapseSpaceTab : Str → Str
  | [] => []
  | c :: rest =>
    if c = ' ' || c = '\t' then
      ' ' :: collapseSpaceTab (rest.dropWhile (fun d => d = ' ' || d = '\t'))
    else c :: collapseSpaceTab rest
termination_by s => s.length
decreasing_by
  · simp only [List.length_cons]
    exact Nat.lt_succ_of_le ((List.dropWhile_suffix _).sublist.length_le)
  · simp

/-- `regexp \n[ \t]*\n → "\n\n"` (Go `ReplaceAllString` resumes scanning
after each match). -/
def collapseNLwsNL : Str → Str
  | [] => []
  | c :: rest =>
    if c = '\n' then
      match _h : rest.dropWhile (fun d => d = ' ' || d = '\t') with
      | '\n' :: tail => '\n' :: '\n' :: collapseNLwsNL tail
      | _ => '\n' :: collapseNLwsNL rest
    else c :: collapseNLwsNL rest
termination_by s => s.length
decreasing_by
  · simp only [List.length_cons]
    have h1 : (rest.dropWhile (fun d => d = ' ' || d = '\t')).length ≤ rest.length :=
      (List.dropWhile_suffix _).sublist.length_le
    rw [_h] at h1
    simp only [List.length_cons] at h1
    omega
  · simp
  · simp

/-- `regexp \n{3,} → "\n\n"`. -/
def collapseNL3 : Str → Str
  | '\n' :: '\n' :: '\n' :: rest =>
    '\n' :: '\n' :: collapseNL3 (rest.dropWhile (fun d => d = '\n'))
  | c :: rest => c :: collapseNL3 rest
  | [] => []
termination_by s => s.length
decreasing_by
  · simp only [List.length_cons]
    have h1 : (rest.dropWhile (fun d => d = '\n')).length ≤ rest.length :=
      (List.dropWhile_suffix _).sublist.length_le
    omega
  · simp

/-- `regexp \n[ \t]*\n[ \t]*\n → "\n\n"` (the non-minimizing branch). -/
def collapseNLwsNLwsNL : Str → Str
  | [] => []
  | c :: rest =>
    if c = '\n' then
      match _h : rest.dropWhile (fun d => d = ' ' || d = '\t') with
      | '\n' :: r2 =>
        match _h2 : r2.dropWhile (fun d => d = ' ' || d = '\t') with
        | '\n' :: tail => '\n' :: '\n' :: collapseNLwsNLwsNL tail
        | _ => '\n' :: collapseNLwsNLwsNL rest
      | _ => '\n' :: collapseNLwsNLwsNL rest
    else c :: collapseNLwsNLwsNL rest
termination_by s => s.length
decreasing_by
  · simp only [List.length_cons]
    have h1 : (rest.dropWhile (fun d => d = ' ' || d = '\t')).length ≤ rest.length :=
      (List.dropWhile_suffix _).sublist.length_le
    have h2 : (r2.dropWhile (fun d => d = ' ' || d = '\t')).length ≤ r2.length :=
      (List.dropWhile_suffix _).sublist.length_le
    rw [_h] at h1
    rw [_h2] at h2
    simp only [List.length_cons] at h1 h2
    omega
  · simp
  · simp
  · simp

/-- `TextProcessor.normalizeWhitespace`. -/
def normalizeWhitespace (opts : TextProcessingOptions) (text : Str) : Str :=
  if opts.minimizeFileSize then
    trimSpace (collapseNL3 (collapseNLwsNL (collapseSpaceTab text)))
  else
    trimSpace (collapseNLwsNLwsNL (collapseSpaceTab text))

/-- The regex `^(Chapter|CHAPTER|Ch\.|CH\.)\s*\d+` (`MatchString`, so a
matching leading segment suffices). -/
def chapterPatternMatch (line : Str) : Bool :=
  ["Chapter".data, "CHAPTER".data, "Ch.".data, "CH.".data].any fun p =>
    startsWithStr line p &&
      match (line.drop p.length).dropWhile isRegexSpace with
      | d :: _ => isDigitChar d
      | [] => false

/-- The regex `^[A-Z][A-Z\s]{10,}$` (all-caps section headers). -/
def sectionPatternMatch : Str → Bool
  | [] => false
  | c :: rest =>
    isUpperAlpha c && 10 ≤ rest.length &&
      rest.all (fun d => isUpperAlpha d || isRegexSpace d)

/-- One iteration of `processChapters`'s line loop. -/
def processChaptersStep (processed : List Str) (line : Str) : List Str :=
  let l := trimSpace line
  if l.isEmpty then processed ++ [[]]
  else if chapterPatternMatch l then
    (if !processed.isEmpty && processed.getLast? ≠ some [] then processed ++ [[]]
     else processed) ++ [l, []]
  else if isTimeSpan l then
    (if !processed.isEmpty && processed.getLast? ≠ some [] then processed ++ [[]]
     else processed) ++ [l, []]
  else if sectionPatternMatch l && l.length < 100 then
    processed ++ [[], l, []]
  else processed ++ [l]

/-- `TextProcessor.processChapters`. -/
def processChapters (text : Str) : Str :=
  joinStr '\n' ((splitOnChar '\n' text).foldl processChaptersStep [])

/-- `html.EscapeString`, per character. -/
def escapeHTMLChar (c : Char) : Str :=
  if c = '&' then "&amp;".data
  else if c = '\'' then "&#39;".data
  else if c = '<' then "&lt;".data
  else if c = '>' then "&gt;".data
  else if c = '"' then "&#34;".data
  else [c]

/-- `html.EscapeString`. -/
def escapeString (s : Str) : Str := (s.map escapeHTMLChar).flatten

/-- `TextProcessor.isHeader` (header detection for HTML conversion). -/
def isHeaderLine (line : Str) : Bool :=
  if 100 < line.length then false
  else
    chapterPatternMatch line || isTimeSpan line ||
      (toUpperStr line = line && 5 < line.length)

/-- One iteration of `convertToHTML`'s line loop; the state is
`(htmlLines, inParagraph)`. -/
def convertHTMLStep (st : List Str × Bool) (line : Str) : List Str × Bool :=
  let l := trimSpace line
  if l.isEmpty then
    if st.2 then (st.1 ++ ["</p>".data], false) else (st.1, st.2)
  else if isHeaderLine l then
    ((if st.2 then st.1 ++ ["</p>".data] else st.1) ++
      ["<h2>".data ++ l ++ "</h2>".data], false)
  else
    let opened := if !st.2 then st.1 ++ ["<p>".data] else st.1
    (opened ++ [l ++ "<br/>".data], true)

/-- `TextProcessor.convertToHTML`. -/
def convertToHTML (text : Str) : Str :=
  let t := escapeString text
  let st := (splitOnChar '\n' t).foldl convertHTMLStep ([], false)
  joinStr '\n' (if st.2 then st.1 ++ ["</p>".data] else st.1)

/-- `TextProcessor.ProcessText`: the full cleaning pipeline. -/
def ProcessText (opts : TextProcessingOptions) (text : Str) : Str :=
  if text.isEmpty then text
  else
    let t := basicCleanup text
    let t := removeBookArtifacts t
    let t := normalizeWhitespace opts t
    let t := processChapters t
    if opts.convertToHTMLOpt then convertToHTML t else t

/-! ## The chapter segmenter (`converter.go`) -/

/-- `Converter.isTimeSpanChapterMarker` — textually identical to
`TextProcessor.isTimeSpan` in the source. -/
def isTimeSpanChapterMarker (line : Str) : Bool := isTimeSpan line

/-- The trimmed first line of the page's (trimmed) text:
`strings.TrimSpace(strings.Split(strings.TrimSpace(page.Text), "\n")[0])`. -/
def firstLineOf (page : PDFPage) : Str :=
  trimSpace ((splitOnChar '\n' (trimSpace page.text)).headD [])

/-- The marker test of `groupPagesIntoChapters`: time-span pattern, or the
substring `"chapter"` anywhere in the lower-cased first line. -/
def gpicMarkerHit (page : PDFPage) : Bool :=
  isTimeSpanChapterMarker (firstLineOf page) ||
    containsSubstr (toLowerStr (firstLineOf page)) ("chapter".data)

/-- `maxPagesPerChapter`. -/
def maxPagesPerChapter : ℕ := 15

/-- `minTextPerChapter`. -/
def minTextPerChapter : ℕ := 800

/-- The loop state of `groupPagesIntoChapters`: completed chapters, the
open chapter accumulator, and its running text length. -/
structure GState where
  chapters : List (List PDFPage)
  current : List PDFPage
  textLen : ℕ
deriving DecidableEq, Repr

/-- Whether the loop iteration at index `i` (state `st`, page `page`)
closes the open chapter: `shouldBreak && i > 0 && len(currentChapter) > 1`,
evaluated after the page has been appended. -/
def breakFired (i : ℕ) (st : GState) (page : PDFPage) : Bool :=
  let isChapterBreak := page.hasText && !st.current.isEmpty && gpicMarkerHit page
  let len' := (st.current ++ [page]).length
  let textLen' := st.textLen + (if page.hasText then page.text.length else 0)
  (isChapterBreak || decide (maxPagesPerChapter ≤ len') ||
      (decide (minTextPerChapter ≤ textLen') && decide (3 ≤ len'))) &&
    decide (0 < i) && decide (1 < len')

/-- One iteration of `groupPagesIntoChapters`'s loop. -/
def gpicStep (i : ℕ) (st : GState) (page : PDFPage) : GState :=
  let current' := st.current ++ [page]
  let textLen' := st.textLen + (if page.hasText then page.text.length else 0)
  if breakFired i st page then ⟨st.chapters ++ [current'], [], 0⟩
  else ⟨st.chapters, current', textLen'⟩

/-- The indexed loop of `groupPagesIntoChapters`. -/
def gpicLoop : ℕ → GState → List PDFPage → GState
  | _, st, [] => st
  | i, st, p :: ps => gpicLoop (i + 1) (gpicStep i st p) ps

/-- `Converter.groupPagesIntoChapters`. -/
def groupPagesIntoChapters (pages : List PDFPage) : List (List PDFPage) :=
  let st := gpicLoop 0 ⟨[], [], 0⟩ pages
  let chapters := if st.current.isEmpty then st.chapters else st.chapters ++ [st.current]
  if chapters.isEmpty then [pages] else chapters

/-- The loop state reached just before processing index `k`. -/
def gpicStateAt (pages : List PDFPage) (k : ℕ) : GState :=
  gpicLoop 0 ⟨[], [], 0⟩ (pages.take k)

/-- Whether the run of the segmenter on `pages` fires a chapter break at
index `k`. -/
def breakFiredAt (pages : List PDFPage) (k : ℕ) : Bool :=
  match pages[k]? with
  | some p => breakFired k (gpicStateAt pages k) p
  | none => false

/-- The chapter closed by the break at index `k` (if one fires there):
the accumulated pages together with the page at index `k`. -/
def closedChapterAt (pages : List PDFPage) (k : ℕ) : Option (List PDFPage) :=
  match pages[k]? with
  | some p =>
    if breakFired k (gpicStateAt pages k) p then
      some ((gpicStateAt pages k).current ++ [p])
    else none
  | none => none

/-! ## Per-page processing (`pdf.go`) -/

/-- The per-page results of the pdfium / OCR collaborators consumed by
`ProcessPage` (an `Except.error` models a non-nil Go error). -/
structure PageOracle where
  instanceOk : Bool
  openOk : Bool
  pageText : Except Unit Str
  renderOk : Bool
  ocrText : Except Unit Str

/-- The processor configuration relevant to `ProcessPage`. -/
structure ProcessorConfig where
  pageCount : ℕ
  enableOCR : Bool
  hasOCRProcessor : Bool
  skipPages : ℕ → Bool
  imagePageRange : Option PageRangeSet

/-- The OCR-fallback stage of `ProcessPage` (lines choosing between the
native text and the OCR text).  Returns the selected text and the page
numbers appended to `rejectedPages` by this stage. -/
def ocrStage (cfg : ProcessorConfig) (rlog : ℚ → ℚ) (mc : MarkovChain)
    (oracle : PageOracle) (pageNum : ℕ) (text : Str) : Str × List ℕ :=
  let shouldTryOCR := cfg.enableOCR && cfg.hasOCRProcessor &&
    (text.isEmpty || decide ((trimSpace text).length < 50))
  if shouldTryOCR && oracle.renderOk then
    match oracle.ocrText with
    | Except.error _ => (text, [])
    | Except.ok ocrText =>
      let ocrTextClean := trimSpace ocrText
      let textClean := trimSpace text
      if decide (textClean.length + 20 < ocrTextClean.length) ||
          (textClean.isEmpty && decide (10 < ocrTextClean.length)) then
        if !isLikelyBleedThrough rlog mc ocrTextClean then (ocrText, [])
        else (text, [pageNum])
      else (text, [])
  else (text, [])

/-- The bleed-through re-check of `ProcessPage` on the selected text:
clears it (and records the page) when flagged. -/
def bleedStage (rlog : ℚ → ℚ) (mc : MarkovChain) (pageNum : ℕ) (text : Str) :
    Str × List ℕ :=
  if !text.isEmpty && decide (20 ≤ (trimSpace text).length) then
    if isLikelyBleedThrough rlog mc text then ([], [pageNum])
    else (text, [])
  else (text, [])

/-- `fmt.Errorf("page number %d out of range (1-%d)", ...)`. -/
def outOfRangeMsg (pageNum pageCount : ℕ) : Str :=
  "page number ".data ++ natStr pageNum ++ " out of range (1-".data ++
    natStr pageCount ++ ")".data

/-- `PDFProcessor.ProcessPage`: result plus the page numbers appended to
`rejectedPages` during the call. -/
def processPage (cfg : ProcessorConfig) (rlog : ℚ → ℚ) (mc : MarkovChain)
    (oracle : PageOracle) (pageNum : ℕ) : Except Str PDFPage × List ℕ :=
  if pageNum < 1 || cfg.pageCount < pageNum then
    (Except.error (outOfRangeMsg pageNum cfg.pageCount), [])
  else if cfg.skipPages pageNum then
    (Except.ok ⟨pageNum, [], false, false, PageType.text, 612, 792⟩, [])
  else if !oracle.instanceOk then
    (Except.error ("failed to get PDFium instance".data), [])
  else if !oracle.openOk then
    (Except.error ("failed to open PDF document".data), [])
  else
    let pageType := GetPageType pageNum cfg.imagePageRange
    let text0 :=
      match oracle.pageText with
      | Except.error _ => []
      | Except.ok t => if t.isEmpty then [] else cleanText t
    let r1 := ocrStage cfg rlog mc oracle pageNum text0
    let r2 := bleedStage rlog mc pageNum r1.1
    (Except.ok ⟨pageNum, r2.1, decide (0 < (trimSpace r2.1).length),
        pageType = PageType.image, pageType, 612, 792⟩,
      r1.2 ++ r2.2)

instance {ε α : Type} [DecidableEq ε] [DecidableEq α] : DecidableEq (Except ε α)
  | Except.error e, Except.error f =>
    if h : e = f then Decidable.isTrue (by rw [h]) else Decidable.isFalse (by simp [h])
  | Except.error _, Except.ok _ => Decidable.isFalse (by simp)
  | Except.ok _, Except.error _ => Decidable.isFalse (by simp)
  | Except.ok x, Except.ok y =>
    if h : x = y then Decidable.isTrue (by rw [h]) else Decidable.isFalse (by simp [h])

/-- `fmt.Errorf("failed to process page %d: %w", i+1, err)`. -/
def pageErrorMsg (pageNum : ℕ) (e : Str) : Str :=
  "failed to process page ".data ++ natStr pageNum ++ ": ".data ++ e

/-- The page loop of `processSequentially`, abstracted over the per-page
processor `proc` (index of the next page, number of pages left). -/
def processSeqAux (proc : ℕ → Except Str PDFPage) : ℕ → ℕ → Except Str (List PDFPage)
  | _, 0 => Except.ok []
  | i, n + 1 =>
    match proc i with
    | Except.error e => Except.error (pageErrorMsg i e)
    | Except.ok p =>
      match processSeqAux proc (i + 1) n with
      | Except.error e => Except.error e
      | Except.ok ps => Except.ok (p :: ps)

/-- `PDFProcessor.processSequentially` (the context-cancellation check is
outside the model: no cancellation is ever requested in a plain run). -/
def processSequentially (pageCount : ℕ) (proc : ℕ → Except Str PDFPage) :
    Except Str (List PDFPage) :=
  processSeqAux proc 1 pageCount

/-- Concatenation of the chapters' page sequences. -/
def flattenChapters : List (List PDFPage) → List PDFPage
  | [] => []
  | c :: cs => c ++ flattenChapters cs

/-! ## Definitions following the spec's words (refinement targets) -/

/-- Modelled from the spec (claim C6): a chapter keyword pattern,
"case-insensitive `chapter` or `ch.` optionally followed by a number". -/
def specChapterKeywordMatch (line : Str) : Bool :=
  let l := toLowerStr (trimSpace line)
  startsWithStr l ("chapter".data) || startsWithStr l ("ch.".data)

/-- The scored pairs of the classifier: adjacent pairs (of the lower-cased
text) whose two characters are both lowercase alphabetic. -/
def scoredPairs (text : Str) : List (Char × Char) :=
  (adjPairs (toLowerStr text)).filter (fun p => isLowerAlpha p.1 && isLowerAlpha p.2)

/-- Modelled from the spec (claim C3): mean log-probability over the
scored pairs. -/
def specMeanLogProb (rlog : ℚ → ℚ) (mc : MarkovChain) (text : Str) : ℚ :=
  ((scoredPairs text).map (fun p => rlog (getTransitionProbability mc p.1 p.2))).sum /
    ((scoredPairs text).length : ℚ)

/-- The suspicious pairs: scored pairs with transition probability below
`0.005`. -/
def suspiciousPairs (mc : MarkovChain) (text : Str) : List (Char × Char) :=
  (scoredPairs text).filter
    (fun p => decide (getTransitionProbability mc p.1 p.2 < 1/200))

/-- Modelled from the spec (claim C3):
`(suspicious pair count / scored pair count) * -2.0`. -/
def specSuspiciousPenalty (mc : MarkovChain) (text : Str) : ℚ :=
  ((suspiciousPairs mc text).length : ℚ) / ((scoredPairs text).length : ℚ) * (-2)

/-- Modelled from the spec (claim C3): stripping only *trailing*
punctuation from a token. -/
def specTrimTrailingPunct (w : Str) : Str := (w.reverse.dropWhile isPunctCut).reverse

/-- Modelled from the spec (claim C3, as written): short-word penalty with
tokens stripped of trailing punctuation only. -/
def specShortWordPenaltyClaim (text : Str) : ℚ :=
  let words := fields text
  let shortCount := (words.filter (fun w =>
    let cw := specTrimTrailingPunct w
    cw.length = 1 || cw.length = 2)).length
  let ratio : ℚ := (shortCount : ℚ) / (words.length : ℚ)
  if 2/5 < ratio then -3/2 else if 1/5 < ratio then -1/2 else 0

/-- The short-word penalty as the code computes it (claim C3 amended):
tokens stripped of leading *and* trailing punctuation. -/
def specShortWordPenaltyAmended (text : Str) : ℚ :=
  let words := fields text
  let shortCount := (words.filter (fun w =>
    let cw := trimBothChars isPunctCut w
    cw.length = 1 || cw.length = 2)).length
  let ratio : ℚ := (shortCount : ℚ) / (words.length : ℚ)
  if 2/5 < ratio then -3/2 else if 1/5 < ratio then -1/2 else 0

/-- The final-score formula exactly as claim C3 states it. -/
def specFinalScoreClaim (rlog : ℚ → ℚ) (mc : MarkovChain) (text : Str) : ℚ :=
  specMeanLogProb rlog mc text + specSuspiciousPenalty mc text +
    specShortWordPenaltyClaim (toLowerStr text)

/-- The final-score formula with the short-word tokens stripped on both
sides (claim C3 amended). -/
def specFinalScoreAmended (rlog : ℚ → ℚ) (mc : MarkovChain) (text : Str) : ℚ :=
  specMeanLogProb rlog mc text + specSuspiciousPenalty mc text +
    specShortWordPenaltyAmended (toLowerStr text)

/-! ## Concrete fixtures for witnesses and counterexamples -/

/-- A trivial stand-in for `math.Log` (the short-string claims never
evaluate it). -/
def zeroLog : ℚ → ℚ := fun _ => 0

/-- A chain giving every transition probability `1/2`. -/
def halfChain : MarkovChain := ⟨fun _ _ => 1, fun _ => 2⟩

/-- A log stand-in that is very negative exactly on sub-floor
probabilities. -/
def stepLog : ℚ → ℚ := fun q => if q ≤ 1/200 then -100 else 0

/-- A chain under which `q`-transitions are rare (probability `1/1000`)
and every other transition has probability `1/2`. -/
def rareQChain : MarkovChain :=
  ⟨fun _ _ => 1, fun c => if c = 'q' then 1000 else 2⟩

/-- 21 `q`s: native text that the classifier flags as noise under
`rareQChain`/`stepLog`. -/
def qqNative : Str := List.replicate 21 'q'

/-- A 50-character clean OCR result under `rareQChain`/`stepLog`. -/
def cleanOcrText : Str := "fine readable sentence with more proper words here".data

def ocrDemoCfg : ProcessorConfig := ⟨1, true, true, fun _ => false, none⟩

def ocrDemoOracle : PageOracle :=
  ⟨true, true, Except.ok qqNative, true, Except.ok cleanOcrText⟩

def pageA : PDFPage := ⟨1, "intro page one".data, true, false, PageType.text, 612, 792⟩

def pageB : PDFPage := ⟨2, "chapter two".data, true, false, PageType.text, 612, 792⟩

def pageC : PDFPage := ⟨3, "after the break".data, true, false, PageType.text, 612, 792⟩

/-- Three pages whose middle page carries an explicit `chapter` marker. -/
def markerPages : List PDFPage := [pageA, pageB, pageC]

def pageD : PDFPage := ⟨1, "plain prose page".data, true, false, PageType.text, 612, 792⟩

def pageE : PDFPage := ⟨2, "Ch. 5\nmore text here".data, true, false, PageType.text, 612, 792⟩

def pageF : PDFPage := ⟨3, "closing page".data, true, false, PageType.text, 612, 792⟩

/-- Three pages whose middle page starts with the `Ch. 5` abbreviation. -/
def abbrevPages : List PDFPage := [pageD, pageE, pageF]

/-- A 3-page document whose skip list names page 5. -/
def skipDemoCfg : ProcessorConfig := ⟨3, false, false, fun n => decide (n = 5), none⟩

def skipDemoOracle : PageOracle := ⟨true, true, Except.ok [], false, Except.error ()⟩

def trivPage : PDFPage := ⟨1, [], false, false, PageType.text, 612, 792⟩

/-- A per-page processor that fails exactly on page 2. -/
def failAt2 : ℕ → Except Str PDFPage := fun n =>
  if n = 2 then Except.error ("boom".data) else Except.ok trivPage

/-- The options `AddChapter` passes to `NewTextProcessor`. -/
def prodOpts : TextProcessingOptions := ⟨true, true, true⟩

/-- The same options with HTML conversion disabled. -/
def noHTMLOpts : TextProcessingOptions := ⟨true, true, false⟩

/-- A page text starting with an explicit chapter heading. -/
def chapterDemoText : Str := "Chapter 1\ntext".data

/-! ## Auxiliary lemmas: the segmenter loop -/

theorem flattenChapters_append (xs ys : List (List PDFPage)) :
    flattenChapters (xs ++ ys) = flattenChapters xs ++ flattenChapters ys := by
  induction xs with
  | nil => simp [flattenChapters]
  | cons c cs ih => simp [flattenChapters, ih]

theorem breakFired_conds (i : ℕ) (st : GState) (page : PDFPage)
    (h : breakFired i st page = true) :
    0 < i ∧ 1 < (st.current ++ [page]).length := by
  unfold breakFired at h
  simp only [Bool.and_eq_true, decide_eq_true_eq] at h
  exact ⟨h.1.2, h.2⟩

theorem gpicStep_fired (i : ℕ) (st : GState) (page : PDFPage)
    (h : breakFired i st page = true) :
    gpicStep i st page = ⟨st.chapters ++ [st.current ++ [page]], [], 0⟩ := by
  unfold gpicStep
  simp [h]

theorem gpicStep_not_fired (i : ℕ) (st : GState) (page : PDFPage)
    (h : breakFired i st page = false) :
    gpicStep i st page =
      ⟨st.chapters, st.current ++ [page],
        st.textLen + (if page.hasText then page.text.length else 0)⟩ := by
  unfold gpicStep
  simp [h]

theorem gpicLoop_join (rest : List PDFPage) : ∀ (i : ℕ) (st : GState),
    flattenChapters (gpicLoop i st rest).chapters ++ (gpicLoop i st rest).current =
      flattenChapters st.chapters ++ (st.current ++ rest) := by
  induction rest with
  | nil => intro i st; simp [gpicLoop]
  | cons p ps ih =>
    intro i st
    simp only [gpicLoop]
    rw [ih]
    cases hb : breakFired i st p
    · rw [gpicStep_not_fired _ _ _ hb]
      simp
    · rw [gpicStep_fired _ _ _ hb]
      simp [flattenChapters_append, flattenChapters]

theorem gpicLoop_minlen (rest : List PDFPage) : ∀ (i : ℕ) (st : GState),
    (∀ c ∈ st.chapters, 2 ≤ c.length) →
    ∀ c ∈ (gpicLoop i st rest).chapters, 2 ≤ c.length := by
  induction rest with
  | nil => intro i st h; simpa [gpicLoop] using h
  | cons p ps ih =>
    intro i st h
    simp only [gpicLoop]
    apply ih
    cases hb : breakFired i st p
    · rw [gpicStep_not_fired _ _ _ hb]
      exact h
    · rw [gpicStep_fired _ _ _ hb]
      intro c hc
      rcases List.mem_append.mp hc with h1 | h2
      · exact h c h1
      · have hc2 : c = st.current ++ [p] := by simpa using h2
        subst hc2
        exact (breakFired_conds _ _ _ hb).2

theorem gpicLoop_chapters_extend (rest : List PDFPage) : ∀ (i : ℕ) (st : GState),
    ∃ tail, (gpicLoop i st rest).chapters = st.chapters ++ tail := by
  induction rest with
  | nil => intro i st; exact ⟨[], by simp [gpicLoop]⟩
  | cons p ps ih =>
    intro i st
    simp only [gpicLoop]
    cases hb : breakFired i st p
    · rw [gpicStep_not_fired _ _ _ hb]
      exact ih (i + 1) _
    · rw [gpicStep_fired _ _ _ hb]
      obtain ⟨tail, ht⟩ := ih (i + 1) ⟨st.chapters ++ [st.current ++ [p]], [], 0⟩
      refine ⟨[st.current ++ [p]] ++ tail, ?_⟩
      simpa [List.append_assoc] using ht

theorem gpicLoop_append (xs ys : List PDFPage) : ∀ (i : ℕ) (st : GState),
    gpicLoop i st (xs ++ ys) = gpicLoop (i + xs.length) (gpicLoop i st xs) ys := by
  induction xs with
  | nil => intro i st; simp [gpicLoop]
  | cons p ps ih =>
    intro i st
    show gpicLoop (i + 1) (gpicStep i st p) (ps ++ ys) =
      gpicLoop (i + (p :: ps).length) (gpicLoop (i + 1) (gpicStep i st p) ps) ys
    rw [ih]
    have hlen : i + (p :: ps).length = (i + 1) + ps.length := by
      simp only [List.length_cons]
      omega
    rw [hlen]

/-! ## Auxiliary lemmas: the sequential page loop -/

theorem processSeqAux_error (proc : ℕ → Except Str PDFPage) (e : Str) :
    ∀ (n i k : ℕ), i ≤ k → k < i + n → proc k = Except.error e →
    (∀ j, i ≤ j → j < k → ∃ p, proc j = Except.ok p) →
    processSeqAux proc i n = Except.error (pageErrorMsg k e) := by
  intro n
  induction n with
  | zero => intro i k h1 h2 _ _; omega
  | succ m ih =>
    intro i k h1 h2 hfail hok
    by_cases hik : i = k
    · subst hik
      simp [processSeqAux, hfail]
    · have hi : i < k := lt_of_le_of_ne h1 hik
      obtain ⟨p, hp⟩ := hok i le_rfl hi
      simp only [processSeqAux, hp]
      rw [ih (i + 1) k hi (by omega) hfail (fun j hj1 hj2 => hok j (by omega) hj2)]

/-! ## Auxiliary lemmas: strings -/

theorem dropWhile_dropWhile (p : Char → Bool) (l : Str) :
    (l.dropWhile p).dropWhile p = l.dropWhile p := by
  cases h : l.dropWhile p with
  | nil => simp
  | cons a as =>
    have hhead := List.head?_dropWhile_not p l
    rw [h] at hhead
    simp at hhead
    rw [List.dropWhile_cons]
    simp [hhead]

theorem trimRightST_idem (s : Str) : trimRightST (trimRightST s) = trimRightST s := by
  unfold trimRightST
  rw [List.reverse_reverse, dropWhile_dropWhile]

theorem mem_trimRightST (s : Str) (c : Char) (h : c ∈ trimRightST s) : c ∈ s := by
  unfold trimRightST at h
  have h1 : c ∈ s.reverse.dropWhile (fun c => c = ' ' || c = '\t') := List.mem_reverse.mp h
  exact List.mem_reverse.mp ((List.dropWhile_suffix _).sublist.mem h1)

theorem splitOnChar_ne_nil (sep : Char) (s : Str) : splitOnChar sep s ≠ [] := by
  induction s with
  | nil => simp [splitOnChar]
  | cons c rest ih =>
    simp only [splitOnChar]
    split
    · simp
    · cases h : splitOnChar sep rest with
      | nil => exact absurd h ih
      | cons w ws => simp [h]

theorem mem_splitOnChar_sub (sep : Char) (s : Str) : ∀ l ∈ splitOnChar sep s,
    ∀ c ∈ l, c ∈ s := by
  induction s with
  | nil =>
    intro l hl c hc
    simp [splitOnChar] at hl
    subst hl
    simp at hc
  | cons a rest ih =>
    intro l hl c hc
    simp only [splitOnChar] at hl
    by_cases ha : a = sep
    · rw [if_pos ha] at hl
      rcases List.mem_cons.mp hl with rfl | h2
      · simp at hc
      · exact List.mem_cons_of_mem _ (ih l h2 c hc)
    · rw [if_neg ha] at hl
      cases hsp : splitOnChar sep rest with
      | nil => exact absurd hsp (splitOnChar_ne_nil sep rest)
      | cons w ws =>
        rw [hsp] at hl
        simp only [List.modifyHead] at hl
        rcases List.mem_cons.mp hl with rfl | h2
        · rcases List.mem_cons.mp hc with rfl | h3
          · exact List.mem_cons_self _ _
          · exact List.mem_cons_of_mem _ (ih w (hsp ▸ List.mem_cons_self w ws) c h3)
        · exact List.mem_cons_of_mem _ (ih l (hsp ▸ List.mem_cons_of_mem _ h2) c hc)

theorem mem_splitOnChar_no_sep (sep : Char) (s : Str) : ∀ l ∈ splitOnChar sep s,
    sep ∉ l := by
  induction s with
  | nil =>
    intro l hl
    simp [splitOnChar] at hl
    subst hl
    simp
  | cons a rest ih =>
    intro l hl
    simp only [splitOnChar] at hl
    by_cases ha : a = sep
    · rw [if_pos ha] at hl
      rcases List.mem_cons.mp hl with rfl | h2
      · simp
      · exact ih l h2
    · rw [if_neg ha] at hl
      cases hsp : splitOnChar sep rest with
      | nil => exact absurd hsp (splitOnChar_ne_nil sep rest)
      | cons w ws =>
        rw [hsp] at hl
        simp only [List.modifyHead] at hl
        rcases List.mem_cons.mp hl with rfl | h2
        · intro hmem
          rcases List.mem_cons.mp hmem with h3 | h3
          · exact ha h3.symm
          · exact ih w (hsp ▸ List.mem_cons_self w ws) h3
        · exact ih l (hsp ▸ List.mem_cons_of_mem _ h2)

theorem mem_joinStr (sep : Char) (ls : List Str) (c : Char) (h : c ∈ joinStr sep ls) :
    c = sep ∨ ∃ l ∈ ls, c ∈ l := by
  induction ls with
  | nil => simp [joinStr] at h
  | cons l ls ih =>
    cases ls with
    | nil =>
      right
      exact ⟨l, List.mem_cons_self _ _, by simpa [joinStr] using h⟩
    | cons l2 ls2 =>
      rw [show joinStr sep (l :: l2 :: ls2) = l ++ sep :: joinStr sep (l2 :: ls2) from rfl] at h
      rcases List.mem_append.mp h with h1 | h2
      · exact Or.inr ⟨l, List.mem_cons_self _ _, h1⟩
      · rcases List.mem_cons.mp h2 with rfl | h3
        · exact Or.inl rfl
        · rcases ih h3 with hsep | ⟨l', hl', hcl'⟩
          · exact Or.inl hsep
          · exact Or.inr ⟨l', List.mem_cons_of_mem _ hl', hcl'⟩

theorem splitOnChar_append_no_sep (sep : Char) (l r : Str) (hl : sep ∉ l) :
    splitOnChar sep (l ++ r) = List.modifyHead (fun w => l ++ w) (splitOnChar sep r) := by
  induction l with
  | nil =>
    cases h : splitOnChar sep r with
    | nil => exact absurd h (splitOnChar_ne_nil sep r)
    | cons w ws => simp [h]
  | cons a as ih =>
    simp only [List.mem_cons, not_or] at hl
    have ha : ¬(a = sep) := fun h => hl.1 (h ▸ rfl)
    simp only [List.cons_append, List.append_eq, splitOnChar, if_neg ha]
    rw [ih hl.2]
    cases h : splitOnChar sep r with
    | nil => exact absurd h (splitOnChar_ne_nil sep r)
    | cons w ws => simp

theorem splitOnChar_joinStr (sep : Char) (ls : List Str) (hne : ls ≠ [])
    (h : ∀ l ∈ ls, sep ∉ l) : splitOnChar sep (joinStr sep ls) = ls := by
  induction ls with
  | nil => exact absurd rfl hne
  | cons l ls ih =>
    cases ls with
    | nil =>
      have h0 := splitOnChar_append_no_sep sep l [] (h l (List.mem_cons_self _ _))
      simpa [joinStr, splitOnChar] using h0
    | cons l2 ls2 =>
      rw [show joinStr sep (l :: l2 :: ls2) = l ++ sep :: joinStr sep (l2 :: ls2) from rfl]
      rw [splitOnChar_append_no_sep sep l _ (h l (List.mem_cons_self _ _))]
      rw [show splitOnChar sep (sep :: joinStr sep (l2 :: ls2)) =
        [] :: splitOnChar sep (joinStr sep (l2 :: ls2)) from by simp [splitOnChar]]
      rw [ih (by simp) (fun l' hl' => h l' (List.mem_cons_of_mem _ hl'))]
      simp

theorem mem_replaceCRLF (s : Str) (c : Char) (h : c ∈ replaceCRLF s) :
    c ∈ s ∨ c = '\n' := by
  induction s using replaceCRLF.induct with
  | case1 => simp [replaceCRLF] at h
  | case2 d =>
    simp only [replaceCRLF] at h
    exact Or.inl h
  | case3 c1 c2 rest hcr ih =>
    simp only [replaceCRLF, if_pos hcr] at h
    rcases List.mem_cons.mp h with rfl | h2
    · exact Or.inr rfl
    · rcases ih h2 with h3 | h3
      · exact Or.inl (List.mem_cons_of_mem _ (List.mem_cons_of_mem _ h3))
      · exact Or.inr h3
  | case4 c1 c2 rest hcr ih =>
    simp only [replaceCRLF, if_neg hcr] at h
    rcases List.mem_cons.mp h with rfl | h2
    · exact Or.inl (List.mem_cons_self _ _)
    · rcases ih h2 with h3 | h3
      · exact Or.inl (List.mem_cons_of_mem _ h3)
      · exact Or.inr h3

theorem replaceCRLF_eq_self (s : Str) (h : '\r' ∉ s) : replaceCRLF s = s := by
  induction s using replaceCRLF.induct with
  | case1 => rfl
  | case2 d => rfl
  | case3 c1 c2 rest hcr ih =>
    exact absurd (hcr.1 ▸ List.mem_cons_self _ _) h
  | case4 c1 c2 rest hcr ih =>
    simp only [List.mem_cons, not_or] at h
    simp only [replaceCRLF, if_neg hcr]
    rw [ih (by simp only [List.mem_cons, not_or]; exact ⟨h.2.1, h.2.2⟩)]

theorem replaceCR_eq_self (s : Str) (h : '\r' ∉ s) : replaceCR s = s := by
  unfold replaceCR
  induction s with
  | nil => rfl
  | cons a rest ih =>
    simp only [List.mem_cons, not_or] at h
    rw [List.map_cons, if_neg (fun hc => h.1 hc.symm), ih (fun hm => h.2 hm)]

theorem basicCleanup_chars (x : Str) (c : Char) (h : c ∈ basicCleanup x) :
    keepChar c = true := by
  unfold basicCleanup at h
  rcases mem_joinStr '\n' _ c h with rfl | ⟨l, hl, hcl⟩
  · decide
  · obtain ⟨l0, hl0, rfl⟩ := List.mem_map.mp hl
    have hc0 : c ∈ l0 := mem_trimRightST _ _ hcl
    have hct2 : c ∈ replaceCR (replaceCRLF (x.filter keepChar)) :=
      mem_splitOnChar_sub _ _ l0 hl0 c hc0
    obtain ⟨d, hd, he⟩ := List.mem_map.mp hct2
    by_cases hdr : d = '\r'
    · rw [if_pos hdr] at he
      rw [← he]
      decide
    · rw [if_neg hdr] at he
      subst he
      rcases mem_replaceCRLF _ d hd with hdx | rfl
      · exact List.of_mem_filter hdx
      · decide

theorem basicCleanup_no_cr (x : Str) : '\r' ∉ basicCleanup x := fun h =>
  absurd (basicCleanup_chars x '\r' h) (by decide)

theorem basicCleanup_idem (x : Str) : basicCleanup (basicCleanup x) = basicCleanup x := by
  have hy : basicCleanup x =
      joinStr '\n'
        ((splitOnChar '\n' (replaceCR (replaceCRLF (x.filter keepChar)))).map trimRightST) :=
    rfl
  have hlsne :
      (splitOnChar '\n' (replaceCR (replaceCRLF (x.filter keepChar)))).map trimRightST ≠ [] := by
    intro h0
    exact splitOnChar_ne_nil _ _ (List.map_eq_nil_iff.mp h0)
  have hlsnosep :
      ∀ l ∈ (splitOnChar '\n' (replaceCR (replaceCRLF (x.filter keepChar)))).map trimRightST,
        '\n' ∉ l := by
    intro l hl hc
    obtain ⟨l0, hl0, rfl⟩ := List.mem_map.mp hl
    exact mem_splitOnChar_no_sep _ _ l0 hl0 (mem_trimRightST _ _ hc)
  calc basicCleanup (basicCleanup x)
      = joinStr '\n'
          ((splitOnChar '\n'
            (replaceCR (replaceCRLF ((basicCleanup x).filter keepChar)))).map trimRightST) := rfl
    _ = joinStr '\n' ((splitOnChar '\n' (basicCleanup x)).map trimRightST) := by
        rw [List.filter_eq_self.mpr (basicCleanup_chars x),
          replaceCRLF_eq_self _ (basicCleanup_no_cr x),
          replaceCR_eq_self _ (basicCleanup_no_cr x)]
    _ = joinStr '\n'
          (((splitOnChar '\n'
            (replaceCR (replaceCRLF (x.filter keepChar)))).map trimRightST).map trimRightST) := by
        rw [hy, splitOnChar_joinStr '\n' _ hlsne hlsnosep]
    _ = joinStr '\n'
          ((splitOnChar '\n' (replaceCR (replaceCRLF (x.filter keepChar)))).map trimRightST) := by
        rw [List.map_map]
        exact congrArg _ (List.map_congr_left (fun a _ => trimRightST_idem a))
    _ = basicCleanup x := hy.symm

/-! ## Auxiliary lemmas: the classifier -/

theorem scoreAcc_foldl (rlog : ℚ → ℚ) (mc : MarkovChain) (ps : List (Char × Char)) :
    ∀ (a : ℚ) (b c : ℕ),
    ps.foldl (scoreAcc rlog mc) (a, b, c) =
      (a + ((ps.filter (fun p => isLowerAlpha p.1 && isLowerAlpha p.2)).map
          (fun p => rlog (getTransitionProbability mc p.1 p.2))).sum,
       b + (ps.filter (fun p => isLowerAlpha p.1 && isLowerAlpha p.2)).length,
       c + ((ps.filter (fun p => isLowerAlpha p.1 && isLowerAlpha p.2)).filter
          (fun p => decide (getTransitionProbability mc p.1 p.2 < 1/200))).length) := by
  induction ps with
  | nil => intro a b c; simp
  | cons p rest ih =>
    intro a b c
    simp only [List.foldl_cons]
    cases hp : (isLowerAlpha p.1 && isLowerAlpha p.2)
    · rw [show scoreAcc rlog mc (a, b, c) p = (a, b, c) from by simp [scoreAcc, hp]]
      rw [ih]
      simp [List.filter_cons, hp]
    · have hfc : List.filter (fun p => isLowerAlpha p.1 && isLowerAlpha p.2) (p :: rest) =
          p :: List.filter (fun p => isLowerAlpha p.1 && isLowerAlpha p.2) rest :=
        List.filter_cons_of_pos hp
      rw [show scoreAcc rlog mc (a, b, c) p =
        (a + rlog (getTransitionProbability mc p.1 p.2), b + 1,
          c + (if getTransitionProbability mc p.1 p.2 < 1/200 then 1 else 0)) from by
          simp [scoreAcc, hp]]
      rw [ih, hfc]
      by_cases hs : getTransitionProbability mc p.1 p.2 < 1/200
      · rw [List.filter_cons_of_pos (by simpa using hs)]
        simp only [List.map_cons, List.sum_cons, List.length_cons, if_pos hs,
          Prod.mk.injEq]
        refine ⟨by ring, by omega, by omega⟩
      · rw [List.filter_cons_of_neg (by simpa using hs)]
        simp only [List.map_cons, List.sum_cons, List.length_cons, if_neg hs,
          Prod.mk.injEq]
        refine ⟨by ring, by omega, by omega⟩

theorem splitAnyWS_ne_nil (s : Str) : splitAnyWS s ≠ [] := by
  induction s with
  | nil => simp [splitAnyWS]
  | cons c rest ih =>
    simp only [splitAnyWS]
    split
    · simp
    · cases h : splitAnyWS rest with
      | nil => exact absurd h ih
      | cons w ws => simp [h]

theorem fields_ne_nil (s : Str) (h : ∃ c ∈ s, isGoSpace c = false) : fields s ≠ [] := by
  induction s with
  | nil => simp at h
  | cons c rest ih =>
    cases hc : isGoSpace c
    · unfold fields
      simp only [splitAnyWS, hc, Bool.false_eq_true, if_false]
      cases hsp : splitAnyWS rest with
      | nil => exact absurd hsp (splitAnyWS_ne_nil rest)
      | cons w ws => simp
    · have h' : ∃ d ∈ rest, isGoSpace d = false := by
        obtain ⟨d, hd, hds⟩ := h
        rcases List.mem_cons.mp hd with rfl | hmem
        · rw [hc] at hds; cases hds
        · exact ⟨d, hmem, hds⟩
      have hrest := ih h'
      unfold fields at hrest ⊢
      simp only [splitAnyWS, hc, if_true]
      simpa using hrest

theorem lowerAlpha_not_space (c : Char) (h : isLowerAlpha c = true) :
    isGoSpace c = false := by
  cases hs : isGoSpace c
  · rfl
  · exfalso
    simp only [isGoSpace, Bool.or_eq_true, decide_eq_true_eq] at hs
    rcases hs with ((((h1 | h2) | h3) | h4) | h5) | h6 <;> subst_vars <;>
      exact absurd h (by decide)

theorem scoredPairs_fields (text : Str) (h : scoredPairs text ≠ []) :
    fields (toLowerStr text) ≠ [] := by
  obtain ⟨p, hp⟩ := List.exists_mem_of_ne_nil _ h
  have hmem : p ∈ adjPairs (toLowerStr text) := List.mem_of_mem_filter hp
  have hpred := List.of_mem_filter hp
  have h1 : p.1 ∈ toLowerStr text := (List.of_mem_zip hmem).1
  apply fields_ne_nil
  refine ⟨p.1, h1, lowerAlpha_not_space _ ?_⟩
  simp only [Bool.and_eq_true] at hpred
  exact hpred.1

theorem adjPairs_len (s : Str) (h : adjPairs s ≠ []) : 2 ≤ s.length := by
  match s with
  | [] => simp [adjPairs] at h
  | [c] => simp [adjPairs] at h
  | a :: b :: rest => simp only [List.length_cons]; omega

theorem singleCharPenalty_eq (t : Str) (h : fields t ≠ []) :
    calculateSingleCharPenalty t = specShortWordPenaltyAmended t := by
  unfold calculateSingleCharPenalty specShortWordPenaltyAmended
  have hlen : ¬((fields t).length = 0) := by
    simpa [List.length_eq_zero] using h
  rw [if_neg hlen]

theorem mem_groupPages (pages : List PDFPage) (x : List PDFPage)
    (hx : x ∈ (gpicLoop 0 ⟨[], [], 0⟩ pages).chapters) :
    x ∈ groupPagesIntoChapters pages := by
  unfold groupPagesIntoChapters
  cases hcur : (gpicLoop 0 ⟨[], [], 0⟩ pages).current.isEmpty
  · have hne : ((gpicLoop 0 ⟨[], [], 0⟩ pages).chapters ++
        [(gpicLoop 0 ⟨[], [], 0⟩ pages).current]).isEmpty = false := by
      simp
    simp only [hcur, Bool.false_eq_true, if_false, hne]
    exact List.mem_append_left _ hx
  · have hne : (gpicLoop 0 ⟨[], [], 0⟩ pages).chapters.isEmpty = false := by
      cases h : (gpicLoop 0 ⟨[], [], 0⟩ pages).chapters with
      | nil => exact absurd (h ▸ hx) (List.not_mem_nil x)
      | cons a as => simp
    simp only [hcur, if_true, hne, Bool.false_eq_true, if_false]
    exact hx

/-! ## Claim C1 -/

/-- Claim C1, counterexample.  The claim states that every input whose
trimmed length is below 20 characters gets verdict "noise" with score
exactly -10.0.  On the concrete input `"abc"` the classifier
(`isLikelyBleedThrough`) instead returns `false` (not noise), and
`ValidateTextContent` returns score `0` with verdict `false`. -/
theorem C1_counterexample :
    (trimSpace ("abc".data)).length < 20 ∧
    isLikelyBleedThrough zeroLog halfChain ("abc".data) = false ∧
    validateTextContent zeroLog (some halfChain) ("abc".data) bleedThreshold ≠ (-10, true) ∧
    validateTextContent zeroLog (some halfChain) ("abc".data) bleedThreshold = (0, false) := by
  refine ⟨?_, ?_, ?_, ?_⟩ <;> with_unfolding_all decide

/-- Claim C1, amended.  For every input string whose trimmed length is
below 20 characters, the classifier returns the verdict "not noise"
(`false`) without scoring, and `ValidateTextContent` returns score `0`
with verdict `false`; no -10.0 score is produced at this boundary. -/
theorem C1_short_input_not_noise (rlog : ℚ → ℚ) (mc : MarkovChain) (text : Str) (θ : ℚ)
    (h : (trimSpace text).length < 20) :
    isLikelyBleedThrough rlog mc text = false ∧
      validateTextContent rlog (some mc) text θ = (0, false) := by
  constructor
  · simp only [isLikelyBleedThrough]
    rw [if_pos h]
  · simp only [validateTextContent]
    rw [if_pos h]

/-- Witness for the amended claim C1 at the concrete input `"tiny"`. -/
theorem C1_witness :
    (trimSpace ("tiny".data)).length < 20 ∧
    (isLikelyBleedThrough zeroLog halfChain ("tiny".data) = false ∧
      validateTextContent zeroLog (some halfChain) ("tiny".data) (-19/5) = (0, false)) :=
  ⟨by with_unfolding_all decide,
    C1_short_input_not_noise zeroLog halfChain ("tiny".data) (-19/5)
      (by with_unfolding_all decide)⟩

/-! ## Claim C8 -/

/-- Claim C8.  The segmenter never closes, as the result of a break
trigger, a chapter with fewer than 2 pages (every chapter in the loop's
completed-chapter list has length ≥ 2), and no break ever fires at index
0 — the first page of the document — whatever the state and the page. -/
theorem C8_no_tiny_or_first_break (pages : List PDFPage) :
    (∀ c ∈ (gpicLoop 0 ⟨[], [], 0⟩ pages).chapters, 2 ≤ c.length) ∧
    breakFiredAt pages 0 = false ∧
    (∀ (st : GState) (p : PDFPage), breakFired 0 st p = false) := by
  refine ⟨gpicLoop_minlen pages 0 ⟨[], [], 0⟩ (by intro c hc; simp at hc), ?_, ?_⟩
  · unfold breakFiredAt
    cases hp : pages[0]? with
    | none => rfl
    | some p =>
      unfold breakFired
      simp
  · intro st p
    unfold breakFired
    simp

/-- Witness for claim C8 at the concrete three-page input. -/
theorem C8_witness :
    (∀ c ∈ (gpicLoop 0 ⟨[], [], 0⟩ markerPages).chapters, 2 ≤ c.length) ∧
      breakFiredAt markerPages 0 = false :=
  ⟨(C8_no_tiny_or_first_break markerPages).1,
    (C8_no_tiny_or_first_break markerPages).2.1⟩

/-! ## Claim C9 -/

/-- Claim C9.  If every page before `k` processes successfully and page
`k` fails with error `e`, the sequential page pass returns the single
wrapped error naming page `k` (and hence no page list at all). -/
theorem C9_error_aborts_run (pageCount : ℕ) (proc : ℕ → Except Str PDFPage)
    (k : ℕ) (e : Str) (h1 : 1 ≤ k) (h2 : k ≤ pageCount)
    (hfail : proc k = Except.error e)
    (hok : ∀ j, 1 ≤ j → j < k → ∃ p, proc j = Except.ok p) :
    processSequentially pageCount proc = Except.error (pageErrorMsg k e) := by
  unfold processSequentially
  exact processSeqAux_error proc e pageCount 1 k h1 (by omega) hfail hok

/-- Witness for claim C9: a 3-page run whose page 2 fails aborts with
the wrapped error naming page 2. -/
theorem C9_witness :
    processSequentially 3 failAt2 = Except.error (pageErrorMsg 2 ("boom".data)) :=
  C9_error_aborts_run 3 failAt2 2 ("boom".data) (by omega) (by omega) rfl
    (fun j hj1 hj2 => by
      have hj : j = 1 := by omega
      subst hj
      exact ⟨trivPage, rfl⟩)

/-! ## Claim C10 -/

/-- Claim C10, counterexample.  The claim quantifies over every page
number in the skip list, but the range check precedes the skip check:
with a 3-page document whose skip list contains page 5, `ProcessPage 5`
returns an out-of-range error, not a skip page. -/
theorem C10_counterexample :
    skipDemoCfg.skipPages 5 = true ∧
    (processPage skipDemoCfg zeroLog halfChain skipDemoOracle 5).1 =
      Except.error (outOfRangeMsg 5 3) := by
  refine ⟨?_, ?_⟩ <;> with_unfolding_all decide

/-- Claim C10, amended.  For every page number in the skip list that is
within the document's page range, `ProcessPage` returns without error a
page with that number, empty text, `HasText = false`, `HasImage = false`
and `PageType = Text` — whatever the image page range and whatever the
collaborators would have returned (no extraction, OCR or classification
runs) — and appends nothing to the rejected-pages list. -/
theorem C10_skip_page (cfg : ProcessorConfig) (rlog : ℚ → ℚ) (mc : MarkovChain)
    (oracle : PageOracle) (n : ℕ)
    (hskip : cfg.skipPages n = true) (h1 : 1 ≤ n) (h2 : n ≤ cfg.pageCount) :
    processPage cfg rlog mc oracle n =
      (Except.ok ⟨n, [], false, false, PageType.text, 612, 792⟩, []) := by
  unfold processPage
  have h0 : (decide (n < 1) || decide (cfg.pageCount < n)) = false := by
    simp only [Bool.or_eq_false_iff, decide_eq_false_iff_not]
    omega
  simp only [h0, Bool.false_eq_true, if_false, hskip, if_true]

/-- Witness for the amended claim C10: page 2 is skip-listed inside the
image page range 1–5 of a 10-page document. -/
theorem C10_witness :
    (ProcessorConfig.mk 10 true true (fun n => decide (n = 2))
        (some ⟨[⟨1, 5⟩]⟩)).skipPages 2 = true ∧
    processPage
        (ProcessorConfig.mk 10 true true (fun n => decide (n = 2)) (some ⟨[⟨1, 5⟩]⟩))
        zeroLog halfChain skipDemoOracle 2 =
      (Except.ok ⟨2, [], false, false, PageType.text, 612, 792⟩, []) :=
  ⟨by decide,
    C10_skip_page _ zeroLog halfChain skipDemoOracle 2 (by decide) (by decide) (by decide)⟩

/-! ## Claim C2 -/

/-- Claim C2, counterexample.  The claim states that on a break the
triggering page becomes the first member of the new chapter and is not a
member of the chapter being closed.  In the concrete run a break fires at
index 1 (the marker page `pageB`), `pageB` IS a member of the chapter
being closed (its last member), and the next chapter starts with `pageC`
rather than with `pageB`. -/
theorem C2_counterexample :
    breakFiredAt markerPages 1 = true ∧
    closedChapterAt markerPages 1 = some [pageA, pageB] ∧
    pageB ∈ [pageA, pageB] ∧
    groupPagesIntoChapters markerPages = [[pageA, pageB], [pageC]] := by
  refine ⟨?_, ?_, ?_, ?_⟩ <;> with_unfolding_all decide

/-- Claim C2, amended.  When a break fires at index `k`, the accumulated
pages TOGETHER WITH the triggering page become the completed chapter
(the triggering page is its last member), that chapter appears in the
segmenter's output, and the accumulators reset: the next chapter starts
empty, so the triggering page is not carried into it. -/
theorem C2_break_closes_with_trigger (pages : List PDFPage) (k : ℕ)
    (h : breakFiredAt pages k = true) :
    ∃ c, closedChapterAt pages k = some c ∧
      c ∈ groupPagesIntoChapters pages ∧
      c.getLast? = pages[k]? ∧
      (gpicStateAt pages (k + 1)).current = [] ∧
      (gpicStateAt pages (k + 1)).textLen = 0 := by
  unfold breakFiredAt at h
  cases hp : pages[k]? with
  | none => rw [hp] at h; cases h
  | some p =>
    rw [hp] at h
    have h' : breakFired k (gpicStateAt pages k) p = true := h
    obtain ⟨hk, -⟩ := List.getElem?_eq_some.mp hp
    have htakelen : (pages.take k).length = k := by
      rw [List.length_take]; omega
    have hstep : gpicStateAt pages (k + 1) = gpicStep k (gpicStateAt pages k) p := by
      unfold gpicStateAt
      rw [List.take_succ, hp]
      simp only [Option.toList_some]
      rw [gpicLoop_append, htakelen]
      simp only [Nat.zero_add]
      rfl
    have hclosed : gpicStep k (gpicStateAt pages k) p =
        ⟨(gpicStateAt pages k).chapters ++ [(gpicStateAt pages k).current ++ [p]], [], 0⟩ :=
      gpicStep_fired _ _ _ h'
    refine ⟨(gpicStateAt pages k).current ++ [p], ?_, ?_, ?_, ?_, ?_⟩
    · unfold closedChapterAt
      rw [hp]
      show (if breakFired k (gpicStateAt pages k) p = true then
        some ((gpicStateAt pages k).current ++ [p]) else none) =
        some ((gpicStateAt pages k).current ++ [p])
      rw [if_pos h']
    · apply mem_groupPages
      have hlen1 : (pages.take (k + 1)).length = k + 1 := by
        rw [List.length_take]; omega
      have hfull : gpicLoop 0 ⟨[], [], 0⟩ pages =
          gpicLoop (k + 1) (gpicStateAt pages (k + 1)) (pages.drop (k + 1)) := by
        conv_lhs => rw [← List.take_append_drop (k + 1) pages]
        rw [gpicLoop_append, hlen1]
        simp only [Nat.zero_add]
        rfl
      rw [hfull]
      obtain ⟨tail, htail⟩ :=
        gpicLoop_chapters_extend (pages.drop (k + 1)) (k + 1) (gpicStateAt pages (k + 1))
      rw [htail, hstep, hclosed]
      exact List.mem_append_left _
        (List.mem_append_right _ (List.mem_singleton.mpr rfl))
    · exact List.getLast?_concat _
    · rw [hstep, hclosed]
    · rw [hstep, hclosed]

/-- Witness for the amended claim C2 at the concrete three-page input. -/
theorem C2_witness :
    ∃ c, closedChapterAt markerPages 1 = some c ∧
      c ∈ groupPagesIntoChapters markerPages ∧
      c.getLast? = markerPages[1]? ∧
      (gpicStateAt markerPages 2).current = [] ∧
      (gpicStateAt markerPages 2).textLen = 0 :=
  C2_break_closes_with_trigger markerPages 1 (by with_unfolding_all decide)

/-! ## Claim C4 -/

/-- Claim C4.  For every non-empty page list, the segmenter's output is a
non-empty chapter list, every chapter is non-empty, and concatenating the
chapters in order reproduces exactly the input page sequence — no
duplicates, no omissions, no reordering. -/
theorem C4_partition (pages : List PDFPage) (h : pages ≠ []) :
    groupPagesIntoChapters pages ≠ [] ∧
    (∀ c ∈ groupPagesIntoChapters pages, c ≠ []) ∧
    flattenChapters (groupPagesIntoChapters pages) = pages := by
  have hjoin := gpicLoop_join pages 0 ⟨[], [], 0⟩
  simp only [flattenChapters, List.nil_append] at hjoin
  have hmin := gpicLoop_minlen pages 0 ⟨[], [], 0⟩ (by intro c hc; simp at hc)
  unfold groupPagesIntoChapters
  cases hcur : (gpicLoop 0 ⟨[], [], 0⟩ pages).current.isEmpty
  · have hcur' : (gpicLoop 0 ⟨[], [], 0⟩ pages).current ≠ [] := by
      intro h0; rw [h0] at hcur; simp at hcur
    have hne : ((gpicLoop 0 ⟨[], [], 0⟩ pages).chapters ++
        [(gpicLoop 0 ⟨[], [], 0⟩ pages).current]).isEmpty = false := by
      simp
    simp only [hcur, Bool.false_eq_true, if_false, hne]
    refine ⟨by simp, ?_, ?_⟩
    · intro c hc
      rcases List.mem_append.mp hc with h1 | h2
      · have h2l := hmin c h1
        intro h0; rw [h0] at h2l; simp at h2l
      · have hc2 : c = (gpicLoop 0 ⟨[], [], 0⟩ pages).current := by simpa using h2
        rw [hc2]
        exact hcur'
    · rw [flattenChapters_append]
      simp only [flattenChapters, List.append_nil]
      exact hjoin
  · have hcur' : (gpicLoop 0 ⟨[], [], 0⟩ pages).current = [] := by
      simpa using hcur
    rw [hcur', List.append_nil] at hjoin
    have hchne : (gpicLoop 0 ⟨[], [], 0⟩ pages).chapters ≠ [] := by
      intro h0
      rw [h0] at hjoin
      simp only [flattenChapters] at hjoin
      exact h hjoin.symm
    have hbe : (gpicLoop 0 ⟨[], [], 0⟩ pages).chapters.isEmpty = false := by
      cases hch : (gpicLoop 0 ⟨[], [], 0⟩ pages).chapters with
      | nil => exact absurd hch hchne
      | cons a as => simp
    simp only [hcur, if_true, hbe, Bool.false_eq_true, if_false]
    refine ⟨hchne, ?_, hjoin⟩
    intro c hc
    have h2l := hmin c hc
    intro h0; rw [h0] at h2l; simp at h2l

/-- Witness for claim C4 at a concrete one-page input. -/
theorem C4_witness :
    groupPagesIntoChapters [trivPage] ≠ [] ∧
      (∀ c ∈ groupPagesIntoChapters [trivPage], c ≠ []) ∧
      flattenChapters (groupPagesIntoChapters [trivPage]) = [trivPage] :=
  C4_partition [trivPage] (by simp)

/-! ## Claim C6 -/

/-- Claim C6, counterexample.  The claim's chapter keyword pattern
includes the abbreviation "ch.".  The code only looks for the substring
"chapter" in the first line: on the concrete run, page `pageE`'s first
line is `Ch. 5`, the spec pattern matches, the open chapter is
non-empty, the page is not the first — yet no break fires and the whole
input remains a single chapter. -/
theorem C6_counterexample :
    pageE.hasText = true ∧
    specChapterKeywordMatch (firstLineOf pageE) = true ∧
    (gpicStateAt abbrevPages 1).current ≠ [] ∧
    breakFiredAt abbrevPages 1 = false ∧
    groupPagesIntoChapters abbrevPages = [[pageD, pageE, pageF]] := by
  refine ⟨?_, ?_, ?_, ?_, ?_⟩ <;> with_unfolding_all decide

/-- Claim C6, amended.  For every page other than the document's first,
with a non-empty open chapter and `HasText`, whose first non-blank line
matches a time-span pattern or CONTAINS the substring "chapter"
case-insensitively (the "ch." abbreviation does not trigger), the
segmenter fires a chapter break at that page. -/
theorem C6_marker_triggers_break (pages : List PDFPage) (k : ℕ) (p : PDFPage)
    (hp : pages[k]? = some p) (h0 : 0 < k)
    (hcur : (gpicStateAt pages k).current ≠ [])
    (ht : p.hasText = true)
    (hm : isTimeSpanChapterMarker (firstLineOf p) = true ∨
      containsSubstr (toLowerStr (firstLineOf p)) ("chapter".data) = true) :
    breakFiredAt pages k = true := by
  unfold breakFiredAt
  rw [hp]
  show breakFired k (gpicStateAt pages k) p = true
  have hmark : gpicMarkerHit p = true := by
    unfold gpicMarkerHit
    rcases hm with h | h <;> simp [h]
  have hcur' : (gpicStateAt pages k).current.isEmpty = false := by
    cases hc : (gpicStateAt pages k).current with
    | nil => exact absurd hc hcur
    | cons a as => simp
  have hlen : 1 < ((gpicStateAt pages k).current ++ [p]).length := by
    rw [List.length_append]
    have := List.length_pos.mpr hcur
    simp only [List.length_cons, List.length_nil]
    omega
  unfold breakFired
  simp [ht, hcur', hmark, h0, hlen, List.length_pos.mpr hcur]

/-- Witness for the amended claim C6: the `chapter` marker page of the
concrete three-page input fires a break. -/
theorem C6_witness : breakFiredAt markerPages 1 = true :=
  C6_marker_triggers_break markerPages 1 pageB rfl (by omega)
    (by with_unfolding_all decide) rfl
    (Or.inr (by with_unfolding_all decide))

/-! ## Claim C7 -/

/-- Claim C7, counterexample.  The claim says a native extracted text
(non-empty, at least 20 trimmed characters) classified as noise leaves
the page with no usable text.  In the concrete run the native text
`qqNative` IS classified as noise, yet the page switches to the longer
clean OCR text and ends with that text. -/
theorem C7_counterexample :
    isLikelyBleedThrough stepLog rareQChain qqNative = true ∧
    qqNative ≠ [] ∧
    20 ≤ (trimSpace qqNative).length ∧
    (processPage ocrDemoCfg stepLog rareQChain ocrDemoOracle 1).1 =
      Except.ok ⟨1, cleanOcrText, true, false, PageType.text, 612, 792⟩ ∧
    cleanOcrText ≠ [] := by
  refine ⟨?_, ?_, ?_, ?_, ?_⟩ <;> with_unfolding_all decide

/-- Claim C7, amended.  (a) The OCR stage either keeps the incoming text
or switches to the OCR text, and it switches only when the OCR text is
substantially longer (more than 20 characters longer, or the native text
empty and the OCR text longer than 10 characters) AND the OCR text is
not classified as noise.  (b) If the text retained after the OCR stage
is the native text — non-empty, at least 20 trimmed characters — and it
is classified as noise, the bleed-through re-check discards it entirely. -/
theorem C7_ocr_switch_and_discard (cfg : ProcessorConfig) (rlog : ℚ → ℚ)
    (mc : MarkovChain) (oracle : PageOracle) (pageNum : ℕ) (text0 : Str) :
    ((ocrStage cfg rlog mc oracle pageNum text0).1 = text0 ∨
      ∃ ocrT, oracle.ocrText = Except.ok ocrT ∧
        (ocrStage cfg rlog mc oracle pageNum text0).1 = ocrT ∧
        ((trimSpace text0).length + 20 < (trimSpace ocrT).length ∨
          (trimSpace text0 = [] ∧ 10 < (trimSpace ocrT).length)) ∧
        isLikelyBleedThrough rlog mc (trimSpace ocrT) = false) ∧
    (text0 ≠ [] → 20 ≤ (trimSpace text0).length →
      isLikelyBleedThrough rlog mc text0 = true →
      (bleedStage rlog mc pageNum text0).1 = []) := by
  constructor
  · unfold ocrStage
    dsimp only
    split
    · split
      · left; rfl
      · rename_i ocrT heq
        split
        · rename_i hlen
          split
          · rename_i hbleed
            refine Or.inr ⟨ocrT, heq, rfl, ?_, ?_⟩
            · simp only [Bool.or_eq_true, decide_eq_true_eq, Bool.and_eq_true,
                List.isEmpty_iff] at hlen
              rcases hlen with h1 | ⟨h1, h2⟩
              · exact Or.inl h1
              · exact Or.inr ⟨h1, h2⟩
            · simpa using hbleed
          · left; rfl
        · left; rfl
    · left; rfl
  · intro hne h20 hbleed
    unfold bleedStage
    have hne' : text0.isEmpty = false := by
      cases text0 with
      | nil => exact absurd rfl hne
      | cons a as => rfl
    simp [hne', h20, hbleed]

/-- Witness for the amended claim C7: the bleed-through re-check clears
the concrete noise text `qqNative`. -/
theorem C7_witness :
    qqNative ≠ [] ∧ 20 ≤ (trimSpace qqNative).length ∧
    isLikelyBleedThrough stepLog rareQChain qqNative = true ∧
    (bleedStage stepLog rareQChain 1 qqNative).1 = [] :=
  ⟨by with_unfolding_all decide, by with_unfolding_all decide,
    by with_unfolding_all decide,
    (C7_ocr_switch_and_discard ocrDemoCfg stepLog rareQChain ocrDemoOracle 1 qqNative).2
      (by with_unfolding_all decide) (by with_unfolding_all decide)
      (by with_unfolding_all decide)⟩

/-! ## Claim C3 -/

/-- Claim C3, counterexample.  Two defects.  (i) The claim strips only
trailing punctuation from tokens before the short-word test, while the
code strips both ends: on `"wonderful :ab"` the code's score differs
from the claim's formula (the code sees the short token `ab`, the
claim's formula sees `:ab` of length 3).  (ii) The claim's "noise iff
final score < -3.8" fails for short strings: `"qq qq qq"` scores far
below -3.8 yet the classifier returns `false` because the trimmed length
is under 20. -/
theorem C3_counterexample :
    scoredPairs ("wonderful :ab".data) ≠ [] ∧
    scoreText zeroLog halfChain ("wonderful :ab".data) ≠
      specFinalScoreClaim zeroLog halfChain ("wonderful :ab".data) ∧
    scoredPairs ("qq qq qq".data) ≠ [] ∧
    scoreText stepLog rareQChain ("qq qq qq".data) < bleedThreshold ∧
    isLikelyBleedThrough stepLog rareQChain ("qq qq qq".data) = false := by
  refine ⟨?_, ?_, ?_, ?_, ?_⟩ <;> with_unfolding_all decide

/-- Claim C3, amended.  For every string with at least one scored
lowercase-alphabetic pair, the final score equals the mean
log-probability over scored pairs, plus (suspicious/scored)·(-2.0) with
"suspicious" meaning probability < 0.005, plus the short-word penalty
computed from tokens stripped of leading AND trailing punctuation; and
for inputs of at least 20 trimmed characters the verdict is "noise" iff
the (trimmed) score is strictly below -3.8 (shorter inputs are never
flagged). -/
theorem C3_score_formula (rlog : ℚ → ℚ) (mc : MarkovChain) (text : Str)
    (h : scoredPairs text ≠ []) :
    scoreText rlog mc text = specFinalScoreAmended rlog mc text ∧
    (20 ≤ (trimSpace text).length →
      (isLikelyBleedThrough rlog mc text = true ↔
        scoreText rlog mc (trimSpace text) < bleedThreshold)) := by
  constructor
  · have hadj : adjPairs (toLowerStr text) ≠ [] := by
      intro h0
      exact h (by simp [scoredPairs, h0])
    have hlen2 : ¬((toLowerStr text).length < 2) := by
      have := adjPairs_len _ hadj
      omega
    have hcount :
        ¬(((adjPairs (toLowerStr text)).filter
          (fun p => isLowerAlpha p.1 && isLowerAlpha p.2)).length = 0) := by
      have hc : ¬((scoredPairs text).length = 0) := by
        simpa [List.length_eq_zero] using h
      exact hc
    unfold scoreText
    rw [if_neg hlen2]
    dsimp only
    rw [scoreAcc_foldl]
    simp only [zero_add, Nat.zero_add]
    rw [if_neg hcount]
    unfold specFinalScoreAmended specMeanLogProb specSuspiciousPenalty suspiciousPairs
    rw [singleCharPenalty_eq _ (scoredPairs_fields text h)]
    unfold scoredPairs
    ring
  · intro h20
    have hn : ¬((trimSpace text).length < 20) := by omega
    simp only [isLikelyBleedThrough]
    rw [if_neg hn]
    exact ⟨of_decide_eq_true, decide_eq_true⟩

/-- Witness for the amended claim C3 at a concrete prose input. -/
theorem C3_witness :
    scoredPairs ("plain readable words".data) ≠ [] ∧
    scoreText zeroLog halfChain ("plain readable words".data) =
      specFinalScoreAmended zeroLog halfChain ("plain readable words".data) :=
  ⟨by with_unfolding_all decide,
    (C3_score_formula zeroLog halfChain ("plain readable words".data)
      (by with_unfolding_all decide)).1⟩

/-! ## Claim C5 -/

/-- Claim C5, counterexample.  The cleaner is not idempotent: on
`"Chapter 1\ntext"` a second application differs from the first, both
with the production options (HTML re-escaping) and with HTML conversion
disabled (`processChapters` re-inserts a blank line after the chapter
marker on every pass). -/
theorem C5_counterexample :
    ProcessText prodOpts (ProcessText prodOpts chapterDemoText) ≠
      ProcessText prodOpts chapterDemoText ∧
    ProcessText noHTMLOpts (ProcessText noHTMLOpts chapterDemoText) ≠
      ProcessText noHTMLOpts chapterDemoText := by
  refine ⟨?_, ?_⟩ <;> with_unfolding_all decide

/-- Claim C5, amended.  The full cleaner is not idempotent (its chapter
stage inserts a fresh blank line after each detected marker on every
application, and HTML conversion re-escapes entities), but its first
stage is: `basicCleanup` — control-character stripping, line-ending
normalization and per-line trailing-whitespace trimming — satisfies
`basicCleanup (basicCleanup x) = basicCleanup x` for every input. -/
theorem C5_basicCleanup_idempotent (x : Str) :
    basicCleanup (basicCleanup x) = basicCleanup x :=
  basicCleanup_idem x

end Publify
